import Mathlib

/-!
Verification of the Folders-aliases gallery engine.

The repository scans a media collection rooted at `public/Portfolio` into a
tree of `GalleryNode`s (src/lib/gallery/types.ts together with the builder,
order, path and cover modules), and an offline generator
(src/scripts/generate-manifest.mjs) precomputes the same tree plus the
`.folders`/`.images` convenience files.

Shallow embedding conventions used throughout this file:
* The filesystem below the collection root is a list of `Entry` values
  (a directory listing in on-disk order); an absolute path such as
  `path.join(ROOT, ...relParts)` is represented by the segment list
  `relParts` relative to the collection root.
* Node's `readdirSync` order is the list order; `statSync` classifies each
  entry as file or directory (the only two kinds in the model).
* JavaScript strings are Lean `String`s; `undefined`/`null` results are
  `Option`; a JS `x || y` / `x ?? y` on these fields is rendered with the
  corresponding `Option` case split (empty strings are treated as falsy
  exactly where the source checks truthiness).
* ICU collation (`localeCompare` with base sensitivity, used only for the
  deterministic sort inside the breadth-first cover search and the
  generator's default ordering) is modelled as lexicographic comparison of
  the lower-cased strings; no theorem depends on the relative order of
  names that this approximation could distinguish from ICU.
-/

namespace Gallery

/-- One directory entry: a file with its text content, or a subdirectory
with its own listing (in on-disk order). -/
inductive Entry where
  | file (name : String) (content : String) : Entry
  | dir (name : String) (entries : List Entry) : Entry
deriving Repr

/-- The filesystem under the collection root `public/Portfolio`:
the root directory's listing. -/
abbrev FS := List Entry

def Entry.name : Entry → String
  | .file n _ => n
  | .dir n _ => n

def Entry.isFile : Entry → Bool
  | .file _ _ => true
  | .dir _ _ => false

def Entry.isDir : Entry → Bool
  | .file _ _ => false
  | .dir _ _ => true

/-- Listing of a directory entry (files have none). -/
def Entry.entries : Entry → List Entry
  | .file _ _ => []
  | .dir _ es => es

/-- First entry with the given (exact) name, as the OS would resolve a
path component. -/
def findEntry (es : List Entry) (n : String) : Option Entry :=
  es.find? (fun e => e.name == n)

/-- Resolve a directory path below the root to its listing.
`none` models ENOENT/ENOTDIR. -/
def resolveDirEntries (fs : FS) : List String → Option (List Entry)
  | [] => some fs
  | d :: rest =>
    match findEntry fs d with
    | some (.dir _ es) => resolveDirEntries es rest
    | _ => none

/-- Embeds `fs.readFileSync(path.join(dir, name), "utf8")` wrapped in try/catch:
the content if `name` is a file of the directory at `dirParts`, else `none`
(missing path, or a directory, both throw in Node). -/
def readFileSafe (fs : FS) (dirParts : List String) (name : String) : Option String :=
  match resolveDirEntries fs dirParts with
  | none => none
  | some es =>
    match findEntry es name with
    | some (.file _ c) => some c
    | _ => none

/-- Embeds `readDirSafe` / `safeReaddirSync`: directory listing, `[]` on any
failure (src/lib/gallery/paths.ts, generate-manifest.mjs). -/
def readDirEntries (fs : FS) (dirParts : List String) : List Entry :=
  (resolveDirEntries fs dirParts).getD []

/-! ### String helpers mirroring the JavaScript primitives

Lean core's `String.splitOn`, `String.replace`, `String.toLower`,
`String.startsWith`, ... are position-based and do not reduce inside the
kernel, so the JavaScript string primitives are modelled directly on the
character list of the string (all are structural and evaluate by
`decide`/`rfl`). -/

/-- JavaScript `String.prototype.trim` whitespace (the characters that can
occur in this repository's text files: ASCII whitespace, NBSP, BOM). -/
def isJsSpace (c : Char) : Bool :=
  c == ' ' || c == '\t' || c == '\n' || c == '\r' ||
  c == (Char.ofNat 11) || c == (Char.ofNat 12) ||
  c == (Char.ofNat 0xA0) || c == (Char.ofNat 0xFEFF)

/-- JavaScript `s.trim()`. -/
def jsTrim (s : String) : String :=
  ⟨((s.data.dropWhile isJsSpace).reverse.dropWhile isJsSpace).reverse⟩

/-- Embeds `pre.isPrefixOf s`, i.e. JavaScript `s.startsWith(pre)`. -/
def strStartsWith (s pre : String) : Bool :=
  pre.data.isPrefixOf s.data

def mapChars (f : Char → Char) (s : String) : String :=
  ⟨s.data.map f⟩

/-- JavaScript `s.toLowerCase()` (ASCII case mapping). -/
def toLowerStr (s : String) : String :=
  mapChars Char.toLower s

/-- Embeds `s.replace(/c/g, "")` for a single character `c`. -/
def removeAllChar (c : Char) (s : String) : String :=
  ⟨s.data.filter (fun d => d != c)⟩

/-- Embeds `s.replace(/\\/g, "/")`. -/
def backslashToSlash (s : String) : String :=
  mapChars (fun c => if c == '\\' then '/' else c) s

/-- Embeds `s.split(sep)` for a one-character separator; like JavaScript, the
empty string yields `[""]` and separators at the ends yield empty pieces. -/
def splitCharList (sep : Char) : List Char → List (List Char)
  | [] => [[]]
  | c :: cs =>
    let ps := splitCharList sep cs
    if c == sep then [] :: ps
    else
      match ps with
      | p :: rest => (c :: p) :: rest
      | [] => [[c]]

def splitChar (sep : Char) (s : String) : List String :=
  (splitCharList sep s.data).map (fun l => ⟨l⟩)

/-- Apply `f` to every element except the last. -/
def mapExceptLast {α : Type} (f : α → α) : List α → List α
  | [] => []
  | [a] => [a]
  | a :: b :: rest => f a :: mapExceptLast f (b :: rest)

/-- Split on `/\r?\n/`: split at each `'\n'`; a `'\r'` immediately before
a `'\n'` belongs to the separator. -/
def splitCRLF (s : String) : List String :=
  let stripCR := fun (l : List Char) =>
    if l.getLast? = some '\r' then l.dropLast else l
  (mapExceptLast stripCR (splitCharList '\n' s.data)).map (fun l => ⟨l⟩)

/-- Embeds `[...strings].join(sep)`. -/
def joinWith (sep : String) : List String → String
  | [] => ""
  | [s] => s
  | s :: t :: rest => s ++ sep ++ joinWith sep (t :: rest)

/-- Embeds `path.extname` restricted to plain filenames: the suffix from the last
dot, empty when there is no dot or the only dot is the leading one. -/
def jsExtname (s : String) : String :=
  match (s.data.reverse.findIdx? (fun c => c == '.')) with
  | none => ""
  | some k =>
    let i := s.length - 1 - k
    if i == 0 then "" else ⟨s.data.drop i⟩

/-- Embeds `stripWeird` (cover.ts, generate-manifest.mjs): drop leading
BOM / word-joiner / zero-width-space characters. -/
def stripWeird (s : String) : String :=
  ⟨s.data.dropWhile (fun c =>
    c == (Char.ofNat 0xFEFF) || c == (Char.ofNat 0x2060) || c == (Char.ofNat 0x200B))⟩

/-- Embeds `s.replace(/^\/+/, "")`. -/
def dropLeadingSlashes (s : String) : String :=
  ⟨s.data.dropWhile (fun c => c == '/')⟩

/-- Percent-encode one byte, upper-case hex as `encodeURIComponent` emits. -/
def hexByte (b : Nat) : String :=
  let digit := fun (n : Nat) =>
    if n < 10 then Char.ofNat ('0'.toNat + n) else Char.ofNat ('A'.toNat + n - 10)
  ⟨['%', digit (b / 16 % 16), digit (b % 16)]⟩

/-- Characters `encodeURIComponent` leaves unescaped. -/
def uriUnreserved (c : Char) : Bool :=
  c.isAlphanum || c == '-' || c == '_' || c == '.' || c == '!' ||
  c == '~' || c == '*' || c == (Char.ofNat 39) || c == '(' || c == ')'

/-- UTF-8 encoding of one character, as byte values. -/
def utf8Bytes (c : Char) : List Nat :=
  let n := c.toNat
  if n < 0x80 then [n]
  else if n < 0x800 then [0xC0 + n / 64, 0x80 + n % 64]
  else if n < 0x10000 then [0xE0 + n / 4096, 0x80 + n / 64 % 64, 0x80 + n % 64]
  else [0xF0 + n / 262144, 0x80 + n / 4096 % 64, 0x80 + n / 64 % 64, 0x80 + n % 64]

/-- JavaScript `encodeURIComponent`: unreserved characters kept, all others
percent-encoded byte-wise from their UTF-8 encoding. -/
def encodeURIComponent (s : String) : String :=
  ⟨s.data.foldr (fun c acc =>
    (if uriUnreserved c then [c]
     else (utf8Bytes c).foldr (fun b acc2 => (hexByte b).data ++ acc2) []) ++ acc) []⟩

/-- Embeds `slugify` (src/lib/gallery/paths.ts). -/
def slugify (name : String) : String := encodeURIComponent name

/-! ### The node type (src/lib/gallery/types.ts) -/

/-- Embeds `GalleryNode`: `coverWebPath`, `images` and `children` are the optional
fields of the TypeScript type. -/
inductive GalleryNode where
  | mk (name slug fsPath webPath : String) (coverWebPath : Option String)
       (images : Option (List String)) (children : Option (List GalleryNode))

def GalleryNode.name : GalleryNode → String
  | .mk n _ _ _ _ _ _ => n

def GalleryNode.slug : GalleryNode → String
  | .mk _ s _ _ _ _ _ => s

def GalleryNode.fsPath : GalleryNode → String
  | .mk _ _ f _ _ _ _ => f

def GalleryNode.webPath : GalleryNode → String
  | .mk _ _ _ w _ _ _ => w

def GalleryNode.coverWebPath : GalleryNode → Option String
  | .mk _ _ _ _ c _ _ => c

def GalleryNode.images : GalleryNode → Option (List String)
  | .mk _ _ _ _ _ i _ => i

def GalleryNode.children : GalleryNode → Option (List GalleryNode)
  | .mk _ _ _ _ _ _ c => c

/-! ### OrderResolver (src/lib/gallery/order.ts) -/

/-- Embeds `readListFile`: raw convenience list, trimmed non-empty lines, no
comment support; `[]` when missing or unreadable. -/
def readListFile (fs : FS) (dirParts : List String) (file : String) : List String :=
  match readFileSafe fs dirParts file with
  | none => []
  | some c => ((splitCRLF c).map jsTrim).filter (fun s => s ≠ "")

/-- Embeds `readOrder`: `.order` with global BOM removal and `#` / `//`
comments. -/
def readOrder (fs : FS) (dirParts : List String) : List String :=
  match readFileSafe fs dirParts ".order" with
  | none => []
  | some c =>
    ((splitCRLF (removeAllChar (Char.ofNat 0xFEFF) c)).map jsTrim).filter
      (fun line => line ≠ "" && !strStartsWith line "#" && !strStartsWith line "//")

def readFolders (fs : FS) (dirParts : List String) : List String :=
  readListFile fs dirParts ".folders"

def readImages (fs : FS) (dirParts : List String) : List String :=
  readListFile fs dirParts ".images"

/-- Embeds `applyOrder(items, orderNames)`: names of `orderNames` that occur in
`items` first, then the remaining `items` in original order. -/
def applyOrder (items orderNames : List String) : List String :=
  if orderNames.isEmpty then items
  else
    (orderNames.filter (fun n => items.contains n)) ++
      (items.filter (fun n => !orderNames.contains n))

/-! ### PathResolver (src/lib/gallery/paths.ts) -/

def IMAGE_EXT_paths : List String :=
  [".jpg", ".jpeg", ".png", ".webp", ".gif", ".avif", ".bmp", ".tiff"]

/-- Embeds `isImageFile` of paths.ts (used by the live tree builder). -/
def isImageFile (file : String) : Bool :=
  IMAGE_EXT_paths.contains (toLowerStr (jsExtname file))

/-! ### CoverResolver (lib/gallery/cover.ts, given as repository part_001) -/

/-- The cover module's `IMAGE_EXT` (also the set used verbatim by
generate-manifest.mjs). -/
def IMAGE_EXT : List String := [".jpg", ".jpeg", ".png", ".webp", ".gif", ".avif"]

def isImageExt6 (file : String) : Bool :=
  IMAGE_EXT.contains (toLowerStr (jsExtname file))

/-- Embeds `normalizeParts`: drop empty/`.` segments, `..` pops the accumulator
(`Array.prototype.pop` on an empty array is a no-op). -/
def normalizeParts (parts : List String) : List String :=
  parts.foldl (fun out p =>
    if p = "" || p = "." then out
    else if p = ".." then out.dropLast
    else out ++ [p]) []

/-- Embeds `slugToWebPath`: `"/" + ["Portfolio", ...parts].join("/")`. -/
def slugToWebPath (parts : List String) : String :=
  "/" ++ joinWith "/" ("Portfolio" :: parts)

/-- Embeds `/^portfolio\//i.test s` -/
def portfolioPrefixed (s : String) : Bool :=
  strStartsWith (toLowerStr s) "portfolio/"

/-- Embeds `resolveLineToSlugParts` (cover.ts): resolve a `.cover`/alias line to
slug parts under the collection root. -/
def resolveLineToSlugParts (rawLine : String) (currentSlugParts : List String) :
    Option (List String) :=
  let line := jsTrim (stripWeird rawLine)
  if line = "" || strStartsWith line "#" then none
  else
    let line := backslashToSlash line
    let cleaned := dropLeadingSlashes line
    if portfolioPrefixed cleaned then
      some (normalizeParts (splitChar '/' cleaned).tail)
    else if strStartsWith rawLine "/" then none
    else
      let relSegs := splitChar '/' cleaned
      let relSegs :=
        match relSegs with
        | s :: rest => if toLowerStr s = "portfolio" then rest else relSegs
        | [] => relSegs
      some (normalizeParts (currentSlugParts ++ relSegs))

/-- Embeds `readFirstLineIfExists`: first line whose stripped+trimmed form is
non-empty and not a `#` comment, returned stripped+trimmed. -/
def readFirstLineIfExists (fs : FS) (dirParts : List String) (filename : String) :
    Option String :=
  match readFileSafe fs dirParts filename with
  | none => none
  | some raw =>
    let txt := stripWeird raw
    match (splitCRLF txt).find? (fun l =>
        let t := jsTrim (stripWeird l)
        t ≠ "" && !strStartsWith t "#") with
    | some line => some (jsTrim (stripWeird line))
    | none => none

/-- Embeds `correctCaseUnderPortfolio`: walk the real tree from the collection
root correcting the case of each segment (exact match first, then
case-insensitive); `none` if the full path does not exist. A non-final
segment must be a directory. -/
def correctCaseGo (es : List Entry) : List String → Option (List String)
  | [] => some []
  | seg :: rest =>
    let m : Option Entry :=
      match findEntry es seg with
      | some e => some e
      | none => es.find? (fun e => toLowerStr e.name == toLowerStr seg)
    match m with
    | none => none
    | some e =>
      if rest.isEmpty then some [e.name]
      else
        match e with
        | .dir _ es' => (correctCaseGo es' rest).map (fun c => e.name :: c)
        | .file _ _ => none

def correctCaseUnderPortfolio (fs : FS) (parts : List String) : Option (List String) :=
  correctCaseGo fs parts

/-! ### Breadth-first subtree search (`findFileUnderPortfolioBFS`)

The JavaScript loop keeps a FIFO queue of absolute paths and re-reads each
directory from the immutable filesystem; the model carries each queued
directory's listing alongside its segment path, which is what
`readdirSync` would return for it.  The loop terminates because every
dequeued directory only enqueues its proper subdirectories; the model makes
this a structural recursion on a fuel that is provably large enough
(`bfsGoF_fuel_irrelevant` below shows any fuel at least the queue measure
gives the same result, so the fuel is a termination device only). -/

mutual
/-- Size of one entry (1 for the entry itself plus its subtree). -/
def entrySize : Entry → Nat
  | .file _ _ => 1
  | .dir _ es => 1 + entriesSize es

/-- Total size of a listing. -/
def entriesSize : List Entry → Nat
  | [] => 0
  | e :: es => entrySize e + entriesSize es
end

/-- Queue measure for the breadth-first search. -/
def qSize : List (List Entry × List String) → Nat
  | [] => 0
  | (es, _) :: q => 1 + entriesSize es + qSize q

/-- Stable insertion sort by a boolean strict-less-than; equal-comparing
elements keep their original relative order, as JavaScript's stable
`Array.prototype.sort`. -/
def insertLt {α : Type} (lt : α → α → Bool) (a : α) : List α → List α
  | [] => [a]
  | b :: bs => if lt b a then b :: insertLt lt a bs else a :: b :: bs

def sortLt {α : Type} (lt : α → α → Bool) : List α → List α
  | [] => []
  | a :: l => insertLt lt a (sortLt lt l)

/-- Lexicographic strict comparison on character lists. -/
def charListLt : List Char → List Char → Bool
  | [], [] => false
  | [], _ :: _ => true
  | _ :: _, [] => false
  | a :: as, b :: bs =>
    if a < b then true else if b < a then false else charListLt as bs

/-- The `localeCompare(..., { sensitivity: "base" })` comparator, modelled
on lower-cased lexicographic order. -/
def ciLt (a b : String) : Bool := charListLt (toLowerStr a).data (toLowerStr b).data

def entLt (a b : Entry) : Bool := ciLt a.name b.name

/-- One breadth-first step per fuel unit: sort the subdirectories and files
of the dequeued directory case-insensitively, look for an exact filename
match and then a case-insensitive one, and otherwise enqueue the
subdirectories. -/
def bfsGoF (target wantedLower : String) :
    Nat → List (List Entry × List String) → Option (List String)
  | _, [] => none
  | 0, _ :: _ => none
  | fuel + 1, (es, parts) :: q =>
    let dirEnts := sortLt entLt (es.filter (fun e => e.isDir && !strStartsWith e.name "."))
    let files := sortLt ciLt ((es.filter Entry.isFile).map Entry.name)
    match files.find? (fun f => f == target) with
    | some f => some (parts ++ [f])
    | none =>
      match files.find? (fun f => toLowerStr f == wantedLower) with
      | some f => some (parts ++ [f])
      | none =>
        bfsGoF target wantedLower fuel
          (q ++ dirEnts.map (fun e => (e.entries, parts ++ [e.name])))

/-- Embeds `findFileUnderPortfolioBFS`: breadth-first search for `targetFileName`
below the (case-corrected) start directory. -/
def findFileUnderPortfolioBFS (fs : FS) (startSlugParts : List String)
    (targetFileName : String) : Option (List String) :=
  match correctCaseUnderPortfolio fs startSlugParts with
  | none => none
  | some startCorrected =>
    match resolveDirEntries fs startCorrected with
    | none => none
    | some es =>
      bfsGoF targetFileName (toLowerStr targetFileName)
        (qSize [(es, startCorrected)]) [(es, startCorrected)]

/-- Embeds `readCoverOverrideWebPath` (cover.ts): the `.cover` override of a
directory as a case-corrected web path, or `none`. -/
def readCoverOverrideWebPath (fs : FS) (dirParts slugParts : List String) :
    Option String :=
  match readFirstLineIfExists fs dirParts ".cover" with
  | none => none
  | some line =>
    if line = "" then none
    else
      match resolveLineToSlugParts line slugParts with
      | none => none
      | some parts =>
        if parts.isEmpty then none
        else
          let last := parts.getLastD ""
          if !isImageExt6 last then none
          else
            match correctCaseUnderPortfolio fs parts with
            | some corrected => some (slugToWebPath corrected)
            | none =>
              let isLikelyRelative :=
                !portfolioPrefixed
                    (dropLeadingSlashes (backslashToSlash (stripWeird line))) &&
                  !strStartsWith (stripWeird line) "/"
              if isLikelyRelative then
                match findFileUnderPortfolioBFS fs slugParts last with
                | some found => some (slugToWebPath found)
                | none => none
              else none

/-- Rule 3 of `resolveCover`: walk the already-built children in display
order; a child with a non-empty image list (and truthy `webPath`) yields
its first image's address, otherwise a truthy `coverWebPath` yields that
cover; the first child yielding either stops the walk. -/
def childCoverStep (c : GalleryNode) : Option String :=
  let coverOf : Option String :=
    match c.coverWebPath with
    | some s => if s ≠ "" then some s else none
    | none => none
  match c.images.getD [] with
  | i :: _ => if c.webPath ≠ "" then some (c.webPath ++ "/" ++ i) else coverOf
  | [] => coverOf

def childWalk : List GalleryNode → Option String
  | [] => none
  | c :: rest =>
    match childCoverStep c with
    | some s => some s
    | none => childWalk rest

/-- Embeds `resolveCover` (cover.ts): parent-level cover precedence.
Rule 1 re-implements the override handling inline (note: unlike
`resolveLineToSlugParts` it does not strip a leading relative
"portfolio/" segment); rule 2 is the exactly-one-image case; rule 3 the
child walk.  `dotDirs` and `childDirs` are accepted but unused, as in the
source. -/
def resolveCover (fs : FS) (absParts relParts : List String)
    (dotDirs imagesHere : List String) (webPath : String)
    (children : List GalleryNode) (childDirs : List String) : Option String :=
  let rule1 : Option String :=
    match readFirstLineIfExists fs absParts ".cover" with
    | none => none
    | some raw =>
      if raw = "" then none
      else
        let normalized := jsTrim (backslashToSlash (stripWeird raw))
        let cleaned := dropLeadingSlashes normalized
        let candidateParts : Option (List String) :=
          if portfolioPrefixed cleaned then
            some (normalizeParts (splitChar '/' cleaned).tail)
          else if !strStartsWith normalized "/" then
            some (normalizeParts (relParts ++ splitChar '/' cleaned))
          else none
        match candidateParts with
        | none => none
        | some ps =>
          if ps.isEmpty then none
          else
            let last := ps.getLastD ""
            if isImageExt6 last then
              match correctCaseUnderPortfolio fs ps with
              | some corrected => some (slugToWebPath corrected)
              | none =>
                let isLikelyRelative :=
                  !portfolioPrefixed cleaned && !strStartsWith normalized "/"
                if isLikelyRelative then
                  match findFileUnderPortfolioBFS fs relParts last with
                  | some found => some (slugToWebPath found)
                  | none => none
                else none
            else
              match correctCaseUnderPortfolio fs ps with
              | some correctedDir =>
                match resolveDirEntries fs correctedDir with
                | some es =>
                  match ((es.filter Entry.isFile).map Entry.name).find?
                      isImageExt6 with
                  | some firstImage =>
                    some ("/" ++ joinWith "/"
                      ("Portfolio" :: (correctedDir ++ [firstImage])))
                  | none => none
                | none => none
              | none => none
  match rule1 with
  | some c => some c
  | none =>
    if imagesHere.length = 1 then some (webPath ++ "/" ++ imagesHere.headD "")
    else childWalk children

/-! ### TreeBuilder (build.ts, shown in src/lib/gallery/types.ts) -/

/-- The development truncation switch (src lib/dev-limit, part_002):
`devLimit = some n` models `isDevRuntime()` true together with
`getDevGalleryLimit() = n` (which is always positive); `none` models
production mode or no limit configured.  The environment reads are
collapsed into this explicit configuration value. -/
structure Config where
  devLimit : Option Nat

/-- Embeds `maybeLimit`: truncate only when a dev limit is configured. -/
def maybeLimit {α : Type} (cfg : Config) (items : List α) : List α :=
  match cfg.devLimit with
  | none => items
  | some n => items.take n

/-- Embeds `path.basename(path.join(ROOT, ...relParts))`. -/
def dirNameOf (relParts : List String) : String :=
  relParts.getLastD "Portfolio"

/-- Stand-in for the absolute `fsPath` string (the `cwd/public` prefix is
omitted; only its basename and non-emptiness are ever observed). -/
def fsPathOf (relParts : List String) : String :=
  joinWith "/" ("Portfolio" :: relParts)

/-- Embeds `path.basename` on a plain (slash-separated, non-empty) path string. -/
def jsBasename (s : String) : String :=
  ((splitChar '/' s).filter (fun t => t ≠ "")).getLastD ""

/-- File names of a directory, in listing order (`statSync().isFile()`). -/
def liveFileNames (fs : FS) (parts : List String) : List String :=
  ((readDirEntries fs parts).filter Entry.isFile).map Entry.name

/-- Subdirectory names of a directory, in listing order. -/
def liveDirNames (fs : FS) (parts : List String) : List String :=
  ((readDirEntries fs parts).filter Entry.isDir).map Entry.name

def liveDotDirs (fs : FS) (parts : List String) : List String :=
  (liveDirNames fs parts).filter (fun d => strStartsWith d ".")

/-- Ordered non-dot subdirectories: `.order` wins, else `.folders`, else
listing order (`applyOrder` with an empty desired list). -/
def liveNormalDirs (fs : FS) (parts : List String) : List String :=
  let normalDirs := (liveDirNames fs parts).filter (fun d => !strStartsWith d ".")
  let order := readOrder fs parts
  let desired := if order.isEmpty then readFolders fs parts else order
  applyOrder normalDirs desired

/-- Ordered images directly inside the directory: `.order` wins, else
`.images`, else listing order. -/
def liveImagesHere (fs : FS) (parts : List String) : List String :=
  let imagesHere := (liveFileNames fs parts).filter isImageFile
  let order := readOrder fs parts
  let desired := if order.isEmpty then readImages fs parts else order
  applyOrder imagesHere desired

/-- The `childDirs` argument assembled for `resolveCover`. -/
def childDirsOf (children : List GalleryNode) : List String :=
  (children.map (fun c =>
    if c.fsPath ≠ "" then jsBasename c.fsPath
    else if c.slug ≠ "" then c.slug
    else if c.webPath ≠ "" then
      ((splitChar '/' c.webPath).filter (fun t => t ≠ "")).getLastD ""
    else "")).filter (fun t => t ≠ "")

/-- Embeds `buildNode` (live scan).  The recursion is fuelled: fuel `0` returns
only the identity fields (never reached when the fuel exceeds the
directory depth; every theorem below quantifies over all fuels or uses an
explicit successor).  The third argument is `siblingsCountAtParent`,
accepted and passed on but never read, as in the source. -/
def buildNode (cfg : Config) (fs : FS) : Nat → List String → Nat → GalleryNode
  | 0, relParts, _ =>
    .mk (dirNameOf relParts) (slugify (dirNameOf relParts)) (fsPathOf relParts)
      (slugToWebPath relParts) none none none
  | fuel + 1, relParts, _siblingsCountAtParent =>
    let dirName := dirNameOf relParts
    let webPath := slugToWebPath relParts
    let normalDirs := liveNormalDirs fs relParts
    let imagesHere := liveImagesHere fs relParts
    let parentChildCount := normalDirs.length
    let children := normalDirs.map (fun d =>
      buildNode cfg fs fuel (relParts ++ [d]) parentChildCount)
    let coverFromParentRules :=
      resolveCover fs relParts relParts (liveDotDirs fs relParts) imagesHere webPath
        children (childDirsOf children)
    let images : Option (List String) :=
      if imagesHere.length > 0 then some imagesHere else none
    let leafPair : Option (List String) × Option String :=
      if children.isEmpty then
        if 2 ≤ imagesHere.length then
          (images,
            match coverFromParentRules with
            | some c => some c
            | none => some (webPath ++ "/" ++ imagesHere.headD ""))
        else if imagesHere.length = 1 then
          (some [imagesHere.headD ""],
            match coverFromParentRules with
            | some c => some c
            | none => some (webPath ++ "/" ++ imagesHere.headD ""))
        else (images, coverFromParentRules)
      else (none, coverFromParentRules)
    .mk dirName (slugify dirName) (fsPathOf relParts) webPath leafPair.2 leafPair.1
      (if children.isEmpty then none
       else if relParts.isEmpty then some (maybeLimit cfg children)
       else some children)

/-- Embeds `getNodeBySlug`: descend the index one slug segment at a time, matching
a child by slug or decoded name.  The index tree (what `getGalleryIndex`
returned for the current environment) and JavaScript's
`decodeURIComponent` are passed as parameters. -/
def getNodeBySlug (decodeURIComponent : String → String) :
    GalleryNode → List String → Option GalleryNode
  | node, [] => some node
  | node, part :: rest =>
    match (node.children.getD []).find? (fun c =>
        c.slug == part || c.name == decodeURIComponent part) with
    | none => none
    | some next => getNodeBySlug decodeURIComponent next rest

/-! ### Snapshot normalization (`normalizeManifest`, types.ts) -/

/-- A raw manifest JSON node: every field may be missing. -/
inductive RawNode where
  | mk (name dirName slug fsPath webPath coverWebPath : Option String)
       (images : Option (List String)) (children : Option (List RawNode))

/-- Embeds `filenameFromWebPath`: text after the last `/`, `none` for a missing
or empty input. -/
def filenameFromWebPath : Option String → Option String
  | none => none
  | some p => if p = "" then none else some ((splitChar '/' p).getLastD p)

mutual
/-- Embeds `normalizeManifest`: normalize a manifest-loaded node.  Children are
normalized first (leaf status is re-derived from them); a leaf with no
images but a known cover gets a one-image list rehydrated from the cover
filename. -/
def normalizeManifest : RawNode → GalleryNode
  | .mk name dirName slug fsPath webPath coverWebPath images children =>
    let nm := name.getD (dirName.getD "")
    let ch : Option (List GalleryNode) :=
      match children with
      | some (c :: cs) => some (normalizeManifestList (c :: cs))
      | _ => none
    let imagesArray := images.getD []
    let imgs : Option (List String) :=
      if imagesArray.isEmpty then none else some imagesArray
    let imgs :=
      if ch.isNone && imgs.isNone then
        match filenameFromWebPath coverWebPath with
        | some fn => if fn ≠ "" then some [fn] else imgs
        | none => imgs
      else imgs
    .mk nm (slug.getD (slugify nm)) (fsPath.getD "") (webPath.getD "")
      coverWebPath imgs ch

def normalizeManifestList : List RawNode → List GalleryNode
  | [] => []
  | r :: rs => normalizeManifest r :: normalizeManifestList rs
end

mutual
/-- Serialization boundary: `JSON.stringify`/`JSON.parse` of a built node
(`undefined` optional fields become absent keys). -/
def toRaw : GalleryNode → RawNode
  | .mk name slug fsPath webPath coverWebPath images children =>
    .mk (some name) none (some slug) (some fsPath) (some webPath) coverWebPath
      images
      (match children with
       | some cs => some (toRawList cs)
       | none => none)

def toRawList : List GalleryNode → List RawNode
  | [] => []
  | n :: ns => toRaw n :: toRawList ns
end

/-! ### ManifestGenerator (src/scripts/generate-manifest.mjs) -/

def DEFAULT_IGNORE_DIRS : List String :=
  ["thumbnails", "thumbnail", "thumbs", "thumb", "proofs", "proof"]

/-- The generator's `isImageFile` (its own six-extension `IMAGE_EXT`,
textually equal to the cover module's set). -/
def genIsImageFile (name : String) : Bool :=
  IMAGE_EXT.contains (toLowerStr (jsExtname name))

/-- Embeds `s.replace(/#.*/, "")` applied to a single line. -/
def stripHashToEol (s : String) : String :=
  ⟨s.data.takeWhile (fun c => c != '#')⟩

/-- Embeds `readLinesIfFile`: `#` starts a comment to end of line, lines trimmed,
empties dropped. -/
def genReadLinesIfFile (fs : FS) (dirParts : List String) (name : String) :
    List String :=
  match readFileSafe fs dirParts name with
  | none => []
  | some raw =>
    ((splitCRLF raw).map (fun s => jsTrim (stripHashToEol s))).filter
      (fun s => s ≠ "")

def genReadOrder (fs : FS) (dirParts : List String) : List String :=
  genReadLinesIfFile fs dirParts ".order"

def genReadIgnore (fs : FS) (dirParts : List String) : List String :=
  (genReadLinesIfFile fs dirParts ".ignore").map toLowerStr

/-- Embeds `isHiddenOrIgnored`: empty, dot- or `@`-prefixed, listed in an
`.ignore` set, or a default thumbnails/proofs directory name. -/
def isHiddenOrIgnored (name : String) (ignoreSet : List String) : Bool :=
  if name = "" then true
  else if strStartsWith name "." || strStartsWith name "@" then true
  else if ignoreSet.contains (toLowerStr name) then true
  else if DEFAULT_IGNORE_DIRS.contains (toLowerStr name) then true
  else false

/-- Position of the LAST occurrence of `n` in `desired` (later
`Map.set` calls overwrite earlier ones). -/
def lastIdxIn (desired : List String) (n : String) : Option Nat :=
  ((desired.enum.filter (fun p => p.2 == n)).getLast?).map (fun p => p.1)

/-- Embeds `applyOrderList`: items found in `desired` first, stably sorted by
their (last) position in `desired`, then the remaining items in original
order. -/
def applyOrderList (items desired : List String) : List String :=
  if desired.isEmpty then items
  else
    let inList := sortLt
      (fun a b => decide ((lastIdxIn desired a).getD 0 < (lastIdxIn desired b).getD 0))
      (items.filter (fun n => (lastIdxIn desired n).isSome))
    let rest := items.filter (fun n => !(lastIdxIn desired n).isSome)
    inList ++ rest

/-- Embeds `ciAlpha` default ordering (stable sort under the collation model of
this file; the `numeric: true` refinement of ICU collation is not
distinguished by any theorem below). -/
def sortCI (l : List String) : List String := sortLt ciLt l

/-- Update the listing of the directory at `parts` (no-op on a missing
path, as the swallowed exceptions of the generator). -/
def updateDirAt (parts : List String) (f : List Entry → List Entry) (fs : FS) : FS :=
  match parts with
  | [] => f fs
  | d :: rest =>
    fs.map (fun e =>
      match e with
      | .dir n es => if n == d then .dir n (updateDirAt rest f es) else e
      | .file _ _ => e)

/-- Embeds `writeIfChanged` then `writeFileSync`.  The `writeIfChanged`
try/catch protects only its own read: the `writeFileSync` that follows
throws UNCAUGHT when the target directory is missing (ENOENT) or when a
directory occupies the file name (EISDIR), killing the generator process
mid-run.  `none` models that uncaught exception (the failed write leaves
the disk unchanged); `some` is the updated tree, where the write replaces
the file's content or appends a new file entry (an identical-content skip
yields the same tree either way). -/
def writeFileAt? (fs : FS) (dirParts : List String) (name content : String) :
    Option FS :=
  match resolveDirEntries fs dirParts with
  | none => none
  | some es0 =>
    match findEntry es0 name with
    | some (.dir _ _) => none
    | _ =>
      some (updateDirAt dirParts (fun es =>
        if es.any (fun e => e.isFile && e.name == name) then
          es.map (fun e => if e.isFile && e.name == name then .file name content else e)
        else es ++ [.file name content]) fs)

/-- Embeds `removeIfExists`: `unlinkSync` behind `existsSync` and a try/catch;
only a file of that name disappears (unlinking a directory throws, and the
exception is swallowed). -/
def removeFileAt (fs : FS) (dirParts : List String) (name : String) : FS :=
  updateDirAt dirParts (fun es => es.filter (fun e => !(e.isFile && e.name == name))) fs

/-- The generator's copy of `resolveLineToSlugParts` (it tests the
backslash-normalized line, not the raw line, against a leading `/`). -/
def genResolveLineToSlugParts (rawLine : String) (currentSlugParts : List String) :
    Option (List String) :=
  let line := jsTrim (stripWeird rawLine)
  if line = "" || strStartsWith line "#" then none
  else
    let line := backslashToSlash line
    let cleaned := dropLeadingSlashes line
    if portfolioPrefixed cleaned then
      some (normalizeParts (splitChar '/' cleaned).tail)
    else if strStartsWith line "/" then none
    else
      let rel := splitChar '/' cleaned
      let rel :=
        match rel with
        | s :: rest => if toLowerStr s = "portfolio" then rest else rel
        | [] => rel
      some (normalizeParts (currentSlugParts ++ rel))

/-- First meaningful `.cover` line, generator style: strip and trim every
line first, then take the first non-empty non-`#` one. -/
def genFirstCoverLine (fs : FS) (dirParts : List String) : Option String :=
  match readFileSafe fs dirParts ".cover" with
  | none => none
  | some raw =>
    if raw = "" then none
    else
      ((splitCRLF (stripWeird raw)).map
        (fun s => jsTrim (stripWeird s))).find?
        (fun s => s ≠ "" && !strStartsWith s "#")

/-- The generator's `readCoverOverrideWebPath`.  Its `correctCase` and BFS
helpers are line-for-line mirrors of the cover module's (the only textual
difference, `safeReaddirSync` returning `[]` where the cover module
catches and aborts, yields the same `none` results), so the shared
definitions above are used. -/
def genReadCoverOverrideWebPath (fs : FS) (dirParts slugParts : List String) :
    Option String :=
  match genFirstCoverLine fs dirParts with
  | none => none
  | some line =>
    match genResolveLineToSlugParts line slugParts with
    | none => none
    | some parts =>
      if parts.isEmpty then none
      else
        let last := parts.getLastD ""
        if !isImageExt6 last then none
        else
          match correctCaseUnderPortfolio fs parts with
          | some corrected => some (slugToWebPath corrected)
          | none =>
            let isLikelyRelative :=
              !portfolioPrefixed (dropLeadingSlashes (backslashToSlash line)) &&
                !strStartsWith line "/"
            if isLikelyRelative then
              match findFileUnderPortfolioBFS fs slugParts last with
              | some found => some (slugToWebPath found)
              | none => none
            else none

/-- Embeds `fallbackCoverFromImages`: `path.posix.join(webPath, images[0])`. -/
def genFallbackCoverFromImages (webPath : String) (images : List String) :
    Option String :=
  match images with
  | [] => none
  | i :: _ => some (webPath ++ "/" ++ i)

/-- The generator's `effectiveCoverWebPath`:
`override || existingCoverWebPath || fallback`. -/
def genEffectiveCoverWebPath (fs : FS) (dirParts slugParts : List String)
    (webPath : String) (existingCoverWebPath : Option String)
    (images : List String) : Option String :=
  match genReadCoverOverrideWebPath fs dirParts slugParts with
  | some o => some o
  | none =>
    match existingCoverWebPath with
    | some e => if e ≠ "" then some e else genFallbackCoverFromImages webPath images
    | none => genFallbackCoverFromImages webPath images

/-- Embeds `cover.slice(webPath.length + 1)`. -/
def strDrop (s : String) (n : Nat) : String := ⟨s.data.drop n⟩

/-- Embeds `buildNode` of generate-manifest.mjs.  The filesystem is threaded
through the recursion because the generator writes the
`.folders`/`.images` convenience files as it walks
(`folders.map(child => buildNode(...))` performs its writes in order; the
fold renders that state threading).  A `writeFileSync` exception is
uncaught and aborts the whole run: the result's first component is `none`
for an aborted run, and the second component is always the disk state
reached (writes performed before the crash persist, nothing after the
crash runs).  The recursion is fuelled exactly like the live builder's. -/
def genBuildNode (fs : FS) :
    Nat → List String → List String → Option GalleryNode × FS
  | 0, relParts, _ =>
    (some (.mk (dirNameOf relParts) (dirNameOf relParts) (fsPathOf relParts)
      (slugToWebPath relParts) none none none), fs)
  | fuel + 1, relParts, inheritedIgnore =>
    let dirName := dirNameOf relParts
    let webPath := slugToWebPath relParts
    let isRoot := relParts.isEmpty
    let combinedIgnore :=
      inheritedIgnore ++ genReadIgnore fs relParts ++ DEFAULT_IGNORE_DIRS
    let entries := readDirEntries fs relParts
    let fileNames := ((entries.filter Entry.isFile).map Entry.name).filter
      (fun n => !isHiddenOrIgnored n combinedIgnore)
    let dirNames := ((entries.filter Entry.isDir).map Entry.name).filter
      (fun n => !isHiddenOrIgnored n combinedIgnore)
    let order := genReadOrder fs relParts
    let images :=
      if order.isEmpty then sortCI (fileNames.filter genIsImageFile)
      else applyOrderList (fileNames.filter genIsImageFile) order
    let folders :=
      if order.isEmpty then sortCI dirNames else applyOrderList dirNames order
    match (if folders.isEmpty then some (removeFileAt fs relParts ".folders")
           else writeFileAt? fs relParts ".folders" (joinWith "\n" folders ++ "\n")) with
    | none => (none, fs)
    | some fs1 =>
      match (if isRoot then some (removeFileAt fs1 relParts ".images")
             else if images.isEmpty then some (removeFileAt fs1 relParts ".images")
             else writeFileAt? fs1 relParts ".images"
               (joinWith "\n" images ++ "\n")) with
      | none => (none, fs1)
      | some fs2 =>
        let cf := folders.foldl (fun (acc : Option (List GalleryNode) × FS) child =>
          match acc.1 with
          | none => acc
          | some ns =>
            match genBuildNode acc.2 fuel (relParts ++ [child]) combinedIgnore with
            | (some n, fsc) => (some (ns ++ [n]), fsc)
            | (none, fsc) => (none, fsc)) (some [], fs2)
        match cf.1 with
        | none => (none, cf.2)
        | some children =>
          let fs3 := cf.2
          let cover := genEffectiveCoverWebPath fs3 relParts relParts webPath none images
          let finalImages :=
            if !children.isEmpty then
              match cover with
              | some c =>
                if strStartsWith c (webPath ++ "/") then
                  images.filter (fun img => img ≠ strDrop c (webPath.length + 1))
                else images
              | none => images
            else images
          (some (.mk dirName dirName (fsPathOf relParts) webPath cover
            (if finalImages.isEmpty then none else some finalImages)
            (if children.isEmpty then none else some children)), fs3)

/-! ### Spec-side definition for the child-walk comparison (claim C2) -/

/-- Written from the SPEC's words, not the source, for comparison with
`childWalk`: "walk children in their resolved display order; return the
first child's cover if non-empty, else that child's first media file; stop
at the first child yielding any result." -/
def childWalkSpec : List GalleryNode → Option String
  | [] => none
  | c :: rest =>
    let step : Option String :=
      match c.coverWebPath with
      | some s => if s ≠ "" then some s else none
      | none => none
    let step : Option String :=
      match step with
      | some s => some s
      | none =>
        match c.images.getD [] with
        | i :: _ => some (c.webPath ++ "/" ++ i)
        | [] => none
    match step with
    | some s => some s
    | none => childWalkSpec rest

/-! ### Concrete fixtures used by counterexamples and witnesses -/

/-- Production configuration: no development truncation. -/
def cfg0 : Config := ⟨none⟩

/-- One subdirectory `A` holding a single image. -/
def fsOneChildImage : FS := [.dir "A" [.file "x.jpg" ""]]

/-- Root with a subdirectory and two root-level images. -/
def fsRootMixed : FS :=
  [.dir "A" [.file "x.jpg" ""], .file "x.jpg" "", .file "y.jpg" ""]

/-- Leaf `A` with one image and an `.order` that repeats its name. -/
def fsDupOrder : FS :=
  [.dir "A" [.file "x.jpg" "", .file ".order" "x.jpg\nx.jpg"]]

/-- Embeds `A/.cover` climbs two levels out of a depth-1 directory; `x.jpg`
exists at the collection root. -/
def fsEscape : FS :=
  [.dir "A" [.file ".cover" "../../x.jpg"], .file "x.jpg" ""]

/-- A `.cover` at the root naming a file that exists only three
directory levels below. -/
def fsDeep : FS :=
  [.file ".cover" "sibling.jpg",
   .dir "A" [.dir "B" [.dir "C" [.file "sibling.jpg" ""]]]]

/-- A `.cover` holding only comment and blank lines. -/
def fsCommentsOnly : FS := [.file ".cover" "# one\n\n   \n# two"]

/-- A collection root holding a DIRECTORY named `.folders`, one real
subfolder, and a stale `.images` file: the generator's root `.folders`
write hits the directory and dies before the root `.images` removal. -/
def fsCrash : FS := [.dir ".folders" [], .dir "A" [], .file ".images" "stale"]

/-- A built child with two images and an override cover naming the second
image (the state a leaf reaches from files `a.jpg`, `b.jpg` and a `.cover`
line `b.jpg`). -/
def c2cexChild : GalleryNode :=
  .mk "C" "C" "Portfolio/D/C" "/Portfolio/D/C" (some "/Portfolio/D/C/b.jpg")
    (some ["a.jpg", "b.jpg"]) none

/-- Scenario child with no media and no cover. -/
def c2scC1 : GalleryNode :=
  .mk "C1" "C1" "Portfolio/D/C1" "/Portfolio/D/C1" none none none

/-- Scenario child with media `["x.jpg"]`. -/
def c2scC2 : GalleryNode :=
  .mk "C2" "C2" "Portfolio/D/C2" "/Portfolio/D/C2" none (some ["x.jpg"]) none

/-! ### Predicates the theorems are stated with -/

/-- Every line of the content trims to empty or to a `#` comment
(claim C8). -/
def onlyCommentsOrBlank (content : String) : Prop :=
  ∀ l ∈ splitCRLF (stripWeird content),
    jsTrim (stripWeird l) = "" ∨ strStartsWith (jsTrim (stripWeird l)) "#" = true

/-- No file named `name` at the top level of the listing (claim C9). -/
def noRootFile (fs : FS) (name : String) : Bool :=
  fs.all (fun e => !(e.isFile && e.name == name))

mutual
/-- Every node of the tree carries the public address determined by its
position: `webPath = "/" + "Portfolio" + "/" + segments`, and each child
sits at the position extended by its own name (claim C1). -/
def addrOK : GalleryNode → List String → Prop
  | .mk _ _ _ w _ _ none, parts => w = slugToWebPath parts
  | .mk _ _ _ w _ _ (some cs), parts => w = slugToWebPath parts ∧ addrOKList cs parts

def addrOKList : List GalleryNode → List String → Prop
  | [], _ => True
  | c :: cs, parts => addrOK c (parts ++ [c.name]) ∧ addrOKList cs parts
end

/-! ## Theorems -/

/-! ### C10: empty address lookup -/

/-- C10: address lookup with an empty segment list always succeeds and
returns the index root itself, for every index tree and every decoding
function. -/
theorem getNodeBySlug_nil (decodeURIComponent : String → String)
    (index : GalleryNode) :
    getNodeBySlug decodeURIComponent index [] = some index := rfl

/-! ### C3: applyOrder is a stable merge -/

/-- Embeds `applyOrder` unconditionally equals listed-part ++ leftover-part. -/
theorem applyOrder_eq (items orderNames : List String) :
    applyOrder items orderNames =
      (orderNames.filter (fun n => items.contains n)) ++
        (items.filter (fun n => !orderNames.contains n)) := by
  unfold applyOrder
  split
  · next h =>
      rw [List.isEmpty_iff.mp h]
      simp
  · rfl

/-- C3: `applyOrder` is a stable merge: matched names first in
`desired` order, leftovers after in original order (the explicit
append equation), nothing dropped, nothing invented, and for
duplicate-free inputs the result is a permutation of `items`. -/
theorem applyOrder_stable_merge (items desired : List String)
    (h1 : items.Nodup) (h2 : desired.Nodup) :
    applyOrder items desired =
        desired.filter (fun n => items.contains n) ++
          items.filter (fun n => !desired.contains n) ∧
      (∀ x ∈ items, x ∈ applyOrder items desired) ∧
      (∀ x ∈ applyOrder items desired, x ∈ items) ∧
      (applyOrder items desired).Perm items := by
  have heq := applyOrder_eq items desired
  have hAB : (desired.filter (fun n => items.contains n)).Perm
      (items.filter (fun n => desired.contains n)) := by
    rw [List.perm_ext_iff_of_nodup (h2.filter _) (h1.filter _)]
    intro a
    simp only [List.mem_filter, List.contains, List.elem_eq_mem, decide_eq_true_eq]
    exact and_comm
  have hperm : (applyOrder items desired).Perm items := by
    rw [heq]
    exact (hAB.append_right _).trans
      (List.filter_append_perm (fun n => desired.contains n) items)
  exact ⟨heq, fun x hx => hperm.mem_iff.mpr hx, fun x hx => hperm.mem_iff.mp hx, hperm⟩

/-- Witness for C3 at a concrete input. -/
theorem applyOrder_stable_merge_witness :
    applyOrder ["a", "b", "c"] ["c", "a"] =
        List.filter (fun n => List.contains ["a", "b", "c"] n) ["c", "a"] ++
          List.filter (fun n => !(List.contains ["c", "a"] n)) ["a", "b", "c"] ∧
      (applyOrder ["a", "b", "c"] ["c", "a"]).Perm ["a", "b", "c"] := by
  have h := applyOrder_stable_merge ["a", "b", "c"] ["c", "a"] (by decide) (by decide)
  exact ⟨h.1, h.2.2.2⟩

/-! ### C2: the child-walk fallback prefers a child's media over its cover -/

/-- C2 counterexample: with a single child holding images
`["a.jpg", "b.jpg"]` and the (non-empty) cover `/Portfolio/D/C/b.jpg`,
the walk returns the first image address, not the child's cover that the
claim prescribes (`childWalkSpec` is the claim's own description). -/
theorem resolveCover_walk_counterexample :
    resolveCover [] ["D"] ["D"] [] [] "/Portfolio/D" [c2cexChild] ["C"] =
        some "/Portfolio/D/C/a.jpg" ∧
      childWalkSpec [c2cexChild] = some "/Portfolio/D/C/b.jpg" ∧
      c2cexChild.coverWebPath = some "/Portfolio/D/C/b.jpg" := by
  refine ⟨by decide, by decide, by decide⟩

/-- C2 (amended): when no `.cover` line is found and the directory does
not hold exactly one direct media file, `resolveCover` performs the child
walk, which prefers a child's first media file (under the child's
`webPath`) and falls back to the child's non-empty cover, stopping at the
first child yielding either. -/
theorem resolveCover_rule3_walk (fs : FS) (absParts relParts dotDirs imagesHere : List String)
    (webPath : String) (children : List GalleryNode) (childDirs : List String)
    (hover : readFirstLineIfExists fs absParts ".cover" = none)
    (hone : imagesHere.length ≠ 1) :
    resolveCover fs absParts relParts dotDirs imagesHere webPath children childDirs =
      childWalk children := by
  unfold resolveCover
  rw [hover]
  simp [hone]

/-- Witness for C2 (amended): the spec's scenario, children
`[C1 (no media, no cover), C2 (media ["x.jpg"])]`, resolves to C2's
`x.jpg`. -/
theorem resolveCover_rule3_walk_witness :
    resolveCover [] ["D"] ["D"] [] [] "/Portfolio/D" [c2scC1, c2scC2] [] =
        childWalk [c2scC1, c2scC2] ∧
      childWalk [c2scC1, c2scC2] = some "/Portfolio/D/C2/x.jpg" :=
  ⟨resolveCover_rule3_walk [] ["D"] ["D"] [] [] "/Portfolio/D" [c2scC1, c2scC2] []
      (by decide) (by decide), by decide⟩

/-! ### C5: `..` beyond the collection root is clamped, not rejected -/

/-- C5 counterexample: the line `../../x.jpg` escapes the depth-1
directory `A` by one level, yet the pops clamp at the root: the override
resolves to the root-level image — a present cover inside the collection,
not the absent one the claim prescribes. -/
theorem coverEscape_counterexample :
    readCoverOverrideWebPath fsEscape ["A"] ["A"] = some "/Portfolio/x.jpg" ∧
      resolveCover fsEscape ["A"] ["A"] [] [] "/Portfolio/A" [] [] =
        some "/Portfolio/x.jpg" :=
  ⟨by decide, by decide⟩

/-- C5 (amended): a `..` that would climb out of the collection root is a
no-op (popping the empty accumulator), so an escaping line is clamped at
the root rather than rejected; resolution never raises (the resolver is
total) and every address it does return is rooted at the collection
marker. -/
theorem coverEscape_clamped (rest : List String) (fs : FS)
    (dirParts slugParts : List String) (w : String) :
    normalizeParts (".." :: rest) = normalizeParts rest ∧
      (readCoverOverrideWebPath fs dirParts slugParts = some w →
        ∃ ps, w = slugToWebPath ps) := by
  constructor
  · rfl
  · intro h
    unfold readCoverOverrideWebPath at h
    dsimp only at h
    repeat' split at h
    all_goals cases h
    all_goals exact ⟨_, rfl⟩

/-- Witness for C5 (amended) at the clamping fixture. -/
theorem coverEscape_clamped_witness :
    normalizeParts [".."] = normalizeParts [] ∧
      (∃ ps, "/Portfolio/x.jpg" = slugToWebPath ps) :=
  ⟨(coverEscape_clamped [] fsEscape ["A"] ["A"] "/Portfolio/x.jpg").1,
    (coverEscape_clamped [] fsEscape ["A"] ["A"] "/Portfolio/x.jpg").2 (by decide)⟩

/-! ### C8: an all-comment cover-override file behaves like no file -/

/-- An all-comment file yields no first meaningful line. -/
theorem readFirstLine_none_of_comments (fs : FS) (dirParts : List String)
    (filename : String) (content : String)
    (hread : readFileSafe fs dirParts filename = some content)
    (hcomm : onlyCommentsOrBlank content) :
    readFirstLineIfExists fs dirParts filename = none := by
  unfold readFirstLineIfExists
  rw [hread]
  dsimp only
  split
  · next line hfound =>
      exfalso
      have hmem := List.mem_of_find?_eq_some hfound
      have hpred := List.find?_some hfound
      rcases hcomm line hmem with h | h
      · simp [h] at hpred
      · simp [h] at hpred
  · rfl

/-- A missing (or unreadable) file yields no first meaningful line. -/
theorem readFirstLine_none_of_absent (fs : FS) (dirParts : List String)
    (filename : String)
    (hread : readFileSafe fs dirParts filename = none) :
    readFirstLineIfExists fs dirParts filename = none := by
  unfold readFirstLineIfExists
  rw [hread]

/-- With no usable `.cover` line, `resolveCover` consists of rules 2–3
only (which read nothing from the filesystem). -/
theorem resolveCover_no_override (fs : FS) (absParts relParts dotDirs imagesHere :
    List String) (webPath : String) (children : List GalleryNode)
    (childDirs : List String)
    (h : readFirstLineIfExists fs absParts ".cover" = none) :
    resolveCover fs absParts relParts dotDirs imagesHere webPath children childDirs =
      if imagesHere.length = 1 then some (webPath ++ "/" ++ imagesHere.headD "")
      else childWalk children := by
  unfold resolveCover
  rw [h]

/-- C8: a cover-override file holding only comment and blank lines
resolves covers exactly as if no override file were present, whatever the
rest of the two filesystems look like. -/
theorem commentOnly_cover_like_absent (fs fsAbs : FS)
    (absParts absParts' relParts dotDirs imagesHere : List String)
    (webPath : String) (children : List GalleryNode) (childDirs : List String)
    (content : String)
    (hread : readFileSafe fs absParts ".cover" = some content)
    (hcomm : onlyCommentsOrBlank content)
    (habsent : readFileSafe fsAbs absParts' ".cover" = none) :
    resolveCover fs absParts relParts dotDirs imagesHere webPath children childDirs =
      resolveCover fsAbs absParts' relParts dotDirs imagesHere webPath children
        childDirs := by
  rw [resolveCover_no_override _ _ _ _ _ _ _ _
      (readFirstLine_none_of_comments _ _ _ _ hread hcomm),
    resolveCover_no_override _ _ _ _ _ _ _ _
      (readFirstLine_none_of_absent _ _ _ habsent)]

/-- Witness for C8: a concrete all-comment `.cover` against the empty
filesystem. -/
theorem commentOnly_cover_like_absent_witness :
    resolveCover fsCommentsOnly [] [] [] ["a.jpg", "b.jpg"] "/Portfolio" [] [] =
      resolveCover [] [] [] [] ["a.jpg", "b.jpg"] "/Portfolio" [] [] :=
  commentOnly_cover_like_absent fsCommentsOnly [] [] [] [] [] ["a.jpg", "b.jpg"]
    "/Portfolio" [] [] "# one\n\n   \n# two" (by decide)
    (by unfold onlyCommentsOrBlank; decide) (by decide)

/-! ### C4: children and an exposed media list -/

/-- C4 counterexample: `normalizeManifest` is one of the two tree sources
of the claim, and on the generator's snapshot of a root holding both a
subdirectory and images (a run the generator completes, as the `some` on
the outside shows) it returns a node with a non-empty children list AND a
media list (the generator only removes the cover file from the list, and
`normalizeManifest` strips nothing from parent nodes). -/
theorem normalize_parent_keeps_images_counterexample :
    ((genBuildNode fsRootMixed 2 [] []).1.map (fun node =>
        ((normalizeManifest (toRaw node)).children.isSome,
          (normalizeManifest (toRaw node)).images))) =
      some (true, some ["y.jpg"]) := by
  decide

/-- C4 (amended): for the LIVE tree builder the claim holds: a node whose
children field is populated exposes no media list, regardless of the files
physically present in the directory. -/
theorem buildNode_children_no_images (cfg : Config) (fs : FS) (fuel : Nat)
    (parts : List String) (sib : Nat)
    (h : (buildNode cfg fs fuel parts sib).children.isSome = true) :
    (buildNode cfg fs fuel parts sib).images = none := by
  cases fuel with
  | zero => simp [buildNode, GalleryNode.children, Option.isSome] at h
  | succ fuel =>
    unfold buildNode at h ⊢
    dsimp only [GalleryNode.children, GalleryNode.images] at h ⊢
    split at h
    · next hempty => simp [Option.isSome] at h
    · next hempty => rw [if_neg hempty]

/-- Witness for C4 (amended): a root with one child exposes no images. -/
theorem buildNode_children_no_images_witness :
    (buildNode cfg0 fsOneChildImage 2 [] 0).children.isSome = true ∧
      (buildNode cfg0 fsOneChildImage 2 [] 0).images = none :=
  ⟨by decide, buildNode_children_no_images cfg0 fsOneChildImage 2 [] 0 (by decide)⟩

/-! ### C7: a leaf with exactly one media file -/

/-- Embeds `applyOrder` of the empty item list is empty. -/
theorem applyOrder_nil (d : List String) : applyOrder [] d = [] := by
  rw [applyOrder_eq]
  simp

/-- Embeds `applyOrder [f] d = [f]` provided `d` names `f` at most once. -/
theorem applyOrder_single (f : String) (d : List String) (h : d.count f ≤ 1) :
    applyOrder [f] d = [f] := by
  rw [applyOrder_eq]
  have hconv : d.filter (fun n => List.contains [f] n) = d.filter (fun n => n == f) := by
    apply List.filter_congr
    intro n _
    cases hnf : (n == f) <;> simp [List.contains, List.elem, hnf]
  rw [hconv]
  by_cases hf : f ∈ d
  · have hcount : d.count f = 1 :=
      Nat.le_antisymm h (List.count_pos_iff.mpr hf)
    have hlen : (d.filter (fun n => n == f)).length = 1 := by
      rw [← List.countP_eq_length_filter, ← List.count_eq_countP, hcount]
    obtain ⟨a, ha⟩ := List.length_eq_one.mp hlen
    have haf : a = f := by
      have hmem : a ∈ d.filter (fun n => n == f) := ha ▸ List.mem_singleton_self a
      exact eq_of_beq (List.mem_filter.mp hmem).2
    have hB : [f].filter (fun n => !(d.contains n)) = [] := by
      simp [List.contains, List.elem_eq_mem, hf]
    rw [ha, haf, hB]
    rfl
  · have hA : d.filter (fun n => n == f) = [] := by
      apply List.filter_eq_nil_iff.mpr
      intro a had
      cases hbeq : (a == f) with
      | false => simp [hbeq]
      | true => exact absurd (eq_of_beq hbeq ▸ had) hf
    have hB : [f].filter (fun n => !(d.contains n)) = [f] := by
      simp [List.contains, List.elem_eq_mem, hf]
    rw [hA, hB]
    rfl

/-- C7 counterexample: directory `A` physically contains exactly one media
file and no cover override, yet an `.order` repeating the filename makes
the exposed media list `["x.jpg", "x.jpg"]`, not the one-element list the
claim promises (order overrides may duplicate by design). -/
theorem leaf_single_image_counterexample :
    (liveFileNames fsDupOrder ["A"]).filter isImageFile = ["x.jpg"] ∧
      readFirstLineIfExists fsDupOrder ["A"] ".cover" = none ∧
      (buildNode cfg0 fsDupOrder 1 ["A"] 0).images = some ["x.jpg", "x.jpg"] :=
  ⟨by decide, by decide, by decide⟩

/-- C7 (amended): a leaf directory (no non-dot subdirectories) whose files
include exactly one media file, with no `.cover` line and no effective
ordering override repeating that filename, exposes exactly the one-element
media list and that file's address as cover. -/
theorem leaf_single_image (cfg : Config) (fs : FS) (fuel : Nat)
    (parts : List String) (sib : Nat) (f : String)
    (himg : (liveFileNames fs parts).filter isImageFile = [f])
    (hdirs : (liveDirNames fs parts).filter (fun d => !strStartsWith d ".") = [])
    (hcover : readFirstLineIfExists fs parts ".cover" = none)
    (hdup : ((if (readOrder fs parts).isEmpty then readImages fs parts
        else readOrder fs parts).count f) ≤ 1) :
    (buildNode cfg fs (fuel + 1) parts sib).images = some [f] ∧
      (buildNode cfg fs (fuel + 1) parts sib).coverWebPath =
        some (slugToWebPath parts ++ "/" ++ f) := by
  have hnd : liveNormalDirs fs parts = [] := by
    unfold liveNormalDirs
    rw [hdirs, applyOrder_nil]
  have hih : liveImagesHere fs parts = [f] := by
    unfold liveImagesHere
    rw [himg]
    exact applyOrder_single f _ hdup
  have hcov : resolveCover fs parts parts (liveDotDirs fs parts) [f]
      (slugToWebPath parts) [] (childDirsOf []) =
      some (slugToWebPath parts ++ "/" ++ f) := by
    rw [resolveCover_no_override fs parts parts (liveDotDirs fs parts) [f]
      (slugToWebPath parts) [] (childDirsOf []) hcover]
    rfl
  unfold buildNode
  dsimp only [GalleryNode.images, GalleryNode.coverWebPath]
  rw [hnd, hih]
  simp only [List.map_nil, hcov]
  exact ⟨rfl, rfl⟩

/-- Witness for C7 (amended) at a concrete one-image leaf. -/
theorem leaf_single_image_witness :
    (buildNode cfg0 fsOneChildImage 1 ["A"] 1).images = some ["x.jpg"] ∧
      (buildNode cfg0 fsOneChildImage 1 ["A"] 1).coverWebPath =
        some (slugToWebPath ["A"] ++ "/" ++ "x.jpg") :=
  leaf_single_image cfg0 fsOneChildImage 0 ["A"] 1 "x.jpg"
    (by decide) (by decide) (by decide) (by decide)


/-! ### C6: relative-looking override falls back to breadth-first search -/

/-- C6: when the `.cover` line is relative-looking (not rooted at the
collection marker, not absolute), resolves to a non-empty segment list
whose last segment carries a recognized media extension, and direct
case-corrected resolution fails, `resolveCover` returns the breadth-first
search result (per level: subdirectories and files in case-insensitive
alphabetical order, exact filename match before case-insensitive) as a
case-corrected address. -/
theorem resolveCover_bfs_fallback (fs : FS)
    (absParts relParts dotDirs imagesHere : List String) (webPath : String)
    (children : List GalleryNode) (childDirs : List String)
    (line : String) (ps found : List String)
    (hline : readFirstLineIfExists fs absParts ".cover" = some line)
    (hne : ¬ line = "")
    (hnotroot : portfolioPrefixed (dropLeadingSlashes (jsTrim (backslashToSlash
      (stripWeird line)))) = false)
    (hnotabs : strStartsWith (jsTrim (backslashToSlash (stripWeird line))) "/" = false)
    (hps : normalizeParts (relParts ++ splitChar '/' (dropLeadingSlashes (jsTrim
      (backslashToSlash (stripWeird line))))) = ps)
    (hpsne : ps.isEmpty = false)
    (hext : isImageExt6 (ps.getLastD "") = true)
    (hdirect : correctCaseUnderPortfolio fs ps = none)
    (hbfs : findFileUnderPortfolioBFS fs relParts (ps.getLastD "") = some found) :
    resolveCover fs absParts relParts dotDirs imagesHere webPath children childDirs =
      some (slugToWebPath found) := by
  unfold resolveCover
  rw [hline]
  dsimp only
  rw [if_neg hne, hnotroot, hnotabs, hps]
  simp only [Bool.false_eq_true, if_false, Bool.not_false, if_true, hpsne, hext,
    Bool.and_self, hdirect, hbfs]

/-- Witness for C6: a bare filename present only three levels below the
current directory is found by the subtree search and returned
case-corrected. -/
theorem resolveCover_bfs_fallback_witness :
    resolveCover fsDeep [] [] [] [] "/Portfolio" [] [] =
      some (slugToWebPath ["A", "B", "C", "sibling.jpg"]) :=
  resolveCover_bfs_fallback fsDeep [] [] [] [] "/Portfolio" [] [] "sibling.jpg"
    ["sibling.jpg"] ["A", "B", "C", "sibling.jpg"]
    (by decide) (by decide) (by decide) (by decide) (by decide) (by decide)
    (by decide) (by decide) (by decide)


/-- Folding the generator over the child directories preserves the
absence of a top-level file (children always live at a non-empty path,
and once aborted the fold performs no further writes). -/
theorem genFold_preserves (name : String) (fuel : Nat)
    (hrec : ∀ (fs : FS) (parts ign : List String), parts ≠ [] →
      noRootFile fs name = true →
      noRootFile (genBuildNode fs fuel parts ign).2 name = true) :
    ∀ (cs : List String) (parts ign : List String)
      (acc : Option (List GalleryNode)) (fs : FS),
      noRootFile fs name = true →
      noRootFile (cs.foldl (fun (acc : Option (List GalleryNode) × FS) child =>
        match acc.1 with
        | none => acc
        | some ns =>
          match genBuildNode acc.2 fuel (parts ++ [child]) ign with
          | (some n, fsc) => (some (ns ++ [n]), fsc)
          | (none, fsc) => (none, fsc)) (acc, fs)).2 name = true := by
  intro cs
  induction cs with
  | nil => intro parts ign acc fs hfs; exact hfs
  | cons c cs ihc =>
    intro parts ign acc fs hfs
    dsimp only [List.foldl]
    cases acc with
    | none => exact ihc parts ign none fs hfs
    | some ns =>
      have hnext := hrec fs (parts ++ [c]) ign (by simp) hfs
      cases hg : genBuildNode fs fuel (parts ++ [c]) ign with
      | mk onode fsc =>
        rw [hg] at hnext
        cases onode with
        | none => exact ihc parts ign none fsc hnext
        | some n => exact ihc parts ign (some (ns ++ [n])) fsc hnext

/-! ### C9: the generator never leaves `.images` at the collection root -/

/-- Updates below a non-empty path do not change top-level file entries. -/
theorem noRootFile_updateDirAt_deep (fs : FS) (d : String) (rest : List String)
    (g : List Entry → List Entry) (name : String)
    (h : noRootFile fs name = true) :
    noRootFile (updateDirAt (d :: rest) g fs) name = true := by
  unfold noRootFile at h ⊢
  unfold updateDirAt
  rw [List.all_eq_true] at h ⊢
  intro e he
  obtain ⟨e0, he0, rfl⟩ := List.mem_map.mp he
  cases e0 with
  | file n c => exact h _ he0
  | dir n es => cases hnd : (n == d) <;> simp [hnd, Entry.isFile]

/-- Removing a file at the root leaves no file of that name. -/
theorem noRootFile_removeFileAt_self (fs : FS) (name : String) :
    noRootFile (removeFileAt fs [] name) name = true := by
  unfold removeFileAt updateDirAt noRootFile
  rw [List.all_eq_true]
  intro e he
  exact (List.mem_filter.mp he).2

/-- A successful write outcome below a non-empty path preserves top-level
file entries. -/
theorem noRootFile_writeFileAt_deep (fs fs2 : FS) (d : String)
    (rest : List String) (nm content name : String)
    (hw : writeFileAt? fs (d :: rest) nm content = some fs2)
    (h : noRootFile fs name = true) : noRootFile fs2 name = true := by
  unfold writeFileAt? at hw
  split at hw
  · cases hw
  · split at hw
    · cases hw
    · cases hw
      exact noRootFile_updateDirAt_deep fs d rest _ name h

/-- One persistence step of the generator at a non-empty path (either a
control-file removal or a successful write) preserves the absence of a
top-level file. -/
theorem noRootFile_stepBranch (fs fs' : FS) (d : String) (rest : List String)
    (nm content name : String) (c : Prop) [Decidable c]
    (hw : (if c then some (removeFileAt fs (d :: rest) nm)
           else writeFileAt? fs (d :: rest) nm content) = some fs')
    (h : noRootFile fs name = true) : noRootFile fs' name = true := by
  by_cases hc : c
  · rw [if_pos hc] at hw
    cases hw
    exact noRootFile_updateDirAt_deep fs d rest _ name h
  · rw [if_neg hc] at hw
    exact noRootFile_writeFileAt_deep fs fs' d rest nm content name hw h

/-- Two-way variant covering the `.images` step, whose removal arm appears
behind two conditions. -/
theorem noRootFile_stepBranch2 (fs fs' : FS) (d : String) (rest : List String)
    (nm content name : String) (c1 c2 : Prop) [Decidable c1] [Decidable c2]
    (hw : (if c1 then some (removeFileAt fs (d :: rest) nm)
           else if c2 then some (removeFileAt fs (d :: rest) nm)
           else writeFileAt? fs (d :: rest) nm content) = some fs')
    (h : noRootFile fs name = true) : noRootFile fs' name = true := by
  by_cases hc1 : c1
  · rw [if_pos hc1] at hw
    cases hw
    exact noRootFile_updateDirAt_deep fs d rest _ name h
  · rw [if_neg hc1] at hw
    exact noRootFile_stepBranch fs fs' d rest nm content name c2 hw h

/-- The main preservation lemma: a generator call on a non-root directory
never creates a top-level file, whether or not the run aborts. -/
theorem genBuildNode_preserves_noRootFile (name : String) : ∀ (fuel : Nat)
    (fs : FS) (parts ign : List String), parts ≠ [] →
    noRootFile fs name = true →
    noRootFile (genBuildNode fs fuel parts ign).2 name = true := by
  intro fuel
  induction fuel with
  | zero => intro fs parts ign _ h; exact h
  | succ fuel ih =>
    intro fs parts ign hp h
    obtain ⟨d, rest, rfl⟩ : ∃ d rest, parts = d :: rest := by
      cases parts with
      | nil => exact absurd rfl hp
      | cons d rest => exact ⟨d, rest, rfl⟩
    unfold genBuildNode
    dsimp only
    split
    · exact h
    · next fs1 hfs1 =>
      have h1 : noRootFile fs1 name = true :=
        noRootFile_stepBranch fs fs1 d rest _ _ name _ hfs1 h
      split
      · exact h1
      · next fs2 hfs2 =>
        have hx2 : noRootFile fs2 name = true :=
          noRootFile_stepBranch2 fs1 fs2 d rest _ _ name _ _ hfs2 h1
        split
        · exact genFold_preserves name fuel ih _ _ _ _ _ hx2
        · exact genFold_preserves name fuel ih _ _ _ _ _ hx2

/-- C9 counterexample: on a root with a directory named `.folders`, a real
subfolder and a stale `.images` file, the root `.folders` write hits the
directory; the uncaught `writeFileSync` exception aborts the run BEFORE
the root `.images` removal, so the run does not complete and the stale
root `.images` file survives - against the claim's "after the run, no
.images file exists in the root directory, whatever its prior state". -/
theorem generator_crash_counterexample :
    (genBuildNode fsCrash 2 [] []).1.isSome = false ∧
      noRootFile (genBuildNode fsCrash 2 [] []).2 ".images" = false :=
  ⟨by decide, by decide⟩

/-- C9 (amended): a completed run of the manifest generator (one ending
without an uncaught write exception) leaves no `.images` file at the
collection root, whatever the prior state and whatever media the root
holds; and even an aborted run never creates a root `.images` file - one
present after an abort is a stale leftover of the prior state. -/
theorem generator_no_root_images (fs : FS) (fuel : Nat) (ign : List String) :
    ((genBuildNode fs (fuel + 1) [] ign).1.isSome = true →
      noRootFile (genBuildNode fs (fuel + 1) [] ign).2 ".images" = true) ∧
    (noRootFile fs ".images" = true →
      noRootFile (genBuildNode fs (fuel + 1) [] ign).2 ".images" = true) := by
  have hrec := fun fs2 parts2 ign2 =>
    genBuildNode_preserves_noRootFile ".images" fuel fs2 parts2 ign2
  unfold genBuildNode
  dsimp only
  split
  · constructor
    · intro hsome
      exact absurd hsome (by simp)
    · intro hprior
      exact hprior
  · next fs1 heq =>
    rw [if_pos (show ([] : List String).isEmpty = true from rfl)]
    dsimp only
    constructor
    · intro hsome
      split
      · exact genFold_preserves ".images" fuel hrec _ _ _ _ _
          (noRootFile_removeFileAt_self fs1 ".images")
      · exact genFold_preserves ".images" fuel hrec _ _ _ _ _
          (noRootFile_removeFileAt_self fs1 ".images")
    · intro hprior
      split
      · exact genFold_preserves ".images" fuel hrec _ _ _ _ _
          (noRootFile_removeFileAt_self fs1 ".images")
      · exact genFold_preserves ".images" fuel hrec _ _ _ _ _
          (noRootFile_removeFileAt_self fs1 ".images")

/-- Witness for C9 (amended) on a run that completes: the one-child tree,
whose root never had and never gains a root `.images` file. -/
theorem generator_no_root_images_witness :
    (genBuildNode fsOneChildImage 2 [] []).1.isSome = true ∧
      noRootFile (genBuildNode fsOneChildImage 2 [] []).2 ".images" = true :=
  ⟨by decide, (generator_no_root_images fsOneChildImage 1 []).1 (by decide)⟩


/-! ### C1: live scan vs normalized snapshot -/

/-- C1 counterexample: on the one-child tree the live scan resolves the
root cover through the child walk, while the generator computes covers
without any child-walk tier and persists no root cover; the normalized
snapshot therefore disagrees with the live tree at depth 0 on the cover
address. -/
theorem live_snapshot_counterexample :
    (buildNode cfg0 fsOneChildImage 2 [] 0).coverWebPath =
        some "/Portfolio/A/x.jpg" ∧
      ((genBuildNode fsOneChildImage 2 [] []).1.map (fun node =>
          (normalizeManifest (toRaw node)).coverWebPath)) = some none :=
  ⟨by decide, by decide⟩

/-- Embeds `addrOKList` unfolded to a bounded quantifier. -/
theorem addrOKList_iff (cs : List GalleryNode) (parts : List String) :
    addrOKList cs parts ↔ ∀ c ∈ cs, addrOK c (parts ++ [c.name]) := by
  induction cs with
  | nil => simp [addrOKList]
  | cons c cs ih => simp [addrOKList, ih]

/-- Introduction rule for `addrOK` via the field accessors. -/
theorem addrOK_intro (n : GalleryNode) (parts : List String)
    (hw : n.webPath = slugToWebPath parts)
    (hc : ∀ c ∈ n.children.getD [], addrOK c (parts ++ [c.name])) :
    addrOK n parts := by
  cases n with
  | mk name slug fsPath webPath cover images children =>
    cases children with
    | none => exact hw
    | some cs =>
      refine ⟨hw, ?_⟩
      rw [addrOKList_iff]
      intro c hcm
      exact hc c hcm

theorem buildNode_name (cfg : Config) (fs : FS) (fuel : Nat)
    (parts : List String) (sib : Nat) :
    (buildNode cfg fs fuel parts sib).name = dirNameOf parts := by
  cases fuel <;> rfl

theorem buildNode_webPath (cfg : Config) (fs : FS) (fuel : Nat)
    (parts : List String) (sib : Nat) :
    (buildNode cfg fs fuel parts sib).webPath = slugToWebPath parts := by
  cases fuel <;> rfl

/-- Embeds `maybeLimit` keeps a subset of the items. -/
theorem maybeLimit_subset {α : Type} (cfg : Config) (items : List α) :
    ∀ x ∈ maybeLimit cfg items, x ∈ items := by
  intro x hx
  unfold maybeLimit at hx
  split at hx
  · exact hx
  · exact (List.take_sublist _ _).mem hx

/-- Every child of a live node is a recursive `buildNode` at the position
extended by a directory name. -/
theorem buildNode_children_mem (cfg : Config) (fs : FS) (fuel : Nat)
    (parts : List String) (sib : Nat) :
    ∀ n ∈ (buildNode cfg fs (fuel + 1) parts sib).children.getD [],
      ∃ d, n = buildNode cfg fs fuel (parts ++ [d])
        (liveNormalDirs fs parts).length := by
  intro n hn
  unfold buildNode at hn
  dsimp only [GalleryNode.children] at hn
  split at hn
  · simp at hn
  · split at hn
    · have := maybeLimit_subset cfg _ n hn
      obtain ⟨d, _, rfl⟩ := List.mem_map.mp this
      exact ⟨d, rfl⟩
    · obtain ⟨d, _, rfl⟩ := List.mem_map.mp hn
      exact ⟨d, rfl⟩

/-- The live tree assigns position-determined addresses at every depth. -/
theorem buildNode_addrOK (cfg : Config) (fs : FS) :
    ∀ (fuel : Nat) (parts : List String) (sib : Nat),
      addrOK (buildNode cfg fs fuel parts sib) parts := by
  intro fuel
  induction fuel with
  | zero => intro parts sib; exact rfl
  | succ fuel ih =>
    intro parts sib
    apply addrOK_intro
    · exact buildNode_webPath cfg fs (fuel + 1) parts sib
    · intro c hc
      obtain ⟨d, rfl⟩ := buildNode_children_mem cfg fs fuel parts sib c hc
      rw [buildNode_name, dirNameOf, List.getLastD_concat]
      exact ih (parts ++ [d]) _


theorem toRawList_eq_map : ∀ (cs : List GalleryNode), toRawList cs = cs.map toRaw := by
  intro cs
  induction cs with
  | nil => rfl
  | cons c cs ih => simp [toRawList, ih]

theorem normalizeManifestList_eq_map : ∀ (rs : List RawNode),
    normalizeManifestList rs = rs.map normalizeManifest := by
  intro rs
  induction rs with
  | nil => rfl
  | cons r rs ih => simp [normalizeManifestList, ih]

/-- Normalizing a serialized node keeps its name. -/
theorem norm_toRaw_name (n : GalleryNode) :
    (normalizeManifest (toRaw n)).name = n.name := by
  cases n with
  | mk name slug fsPath webPath cover images children => rfl

/-- Normalizing a serialized node keeps its public address. -/
theorem norm_toRaw_webPath (n : GalleryNode) :
    (normalizeManifest (toRaw n)).webPath = n.webPath := by
  cases n with
  | mk name slug fsPath webPath cover images children => rfl

/-- Every child of a normalized serialized node is the normalization of a
child of the original node. -/
theorem norm_toRaw_children_mem (n : GalleryNode) :
    ∀ c ∈ (normalizeManifest (toRaw n)).children.getD [],
      ∃ m ∈ n.children.getD [], c = normalizeManifest (toRaw m) := by
  cases n with
  | mk name slug fsPath webPath cover images children =>
    intro c hc
    cases children with
    | none => simp [normalizeManifest, toRaw, GalleryNode.children] at hc
    | some cs =>
      cases cs with
      | nil => simp [normalizeManifest, toRaw, toRawList, GalleryNode.children] at hc
      | cons c0 cs0 =>
        dsimp only [normalizeManifest, toRaw, toRawList, GalleryNode.children] at hc
        rw [Option.getD_some] at hc
        rw [normalizeManifestList_eq_map, toRawList_eq_map] at hc
        have hc2 : c ∈ (c0 :: cs0).map (fun m => normalizeManifest (toRaw m)) := by
          simpa [List.map_map, Function.comp] using hc
        obtain ⟨m, hm, rfl⟩ := List.mem_map.mp hc2
        exact ⟨m, by simpa [GalleryNode.children] using hm, rfl⟩

/-- A node a generator call returns carries the position-determined name
and public address. -/
theorem genBuildNode_some_addr (fs : FS) (fuel : Nat) (parts ign : List String)
    (node : GalleryNode)
    (h : (genBuildNode fs fuel parts ign).1 = some node) :
    node.name = dirNameOf parts ∧ node.webPath = slugToWebPath parts := by
  cases fuel with
  | zero =>
    unfold genBuildNode at h
    cases Option.some.inj h
    exact ⟨rfl, rfl⟩
  | succ fuel =>
    unfold genBuildNode at h
    dsimp only at h
    repeat' split at h
    all_goals first
      | exact Option.noConfusion h
      | (cases Option.some.inj h; exact ⟨rfl, rfl⟩)

/-- Once the generator's child fold has aborted it stays aborted. -/
theorem genFold_none (fuel : Nat) (parts ign : List String) :
    ∀ (cs : List String) (fs : FS),
      (cs.foldl (fun (acc : Option (List GalleryNode) × FS) child =>
        match acc.1 with
        | none => acc
        | some ns =>
          match genBuildNode acc.2 fuel (parts ++ [child]) ign with
          | (some n, fsc) => (some (ns ++ [n]), fsc)
          | (none, fsc) => (none, fsc)) (none, fs)).1 = none := by
  intro cs
  induction cs with
  | nil => intro fs; rfl
  | cons c cs ihc =>
    intro fs
    dsimp only [List.foldl]
    exact ihc fs

/-- Every collected child of a completed generator fold comes from the
initial accumulator or from a recursive call that itself completed, on
some intermediate filesystem state. -/
theorem genFold_children (fuel : Nat) (parts ign : List String) :
    ∀ (cs : List String) (acc : Option (List GalleryNode)) (fs : FS)
      (l : List GalleryNode),
      (cs.foldl (fun (acc : Option (List GalleryNode) × FS) child =>
        match acc.1 with
        | none => acc
        | some ns =>
          match genBuildNode acc.2 fuel (parts ++ [child]) ign with
          | (some n, fsc) => (some (ns ++ [n]), fsc)
          | (none, fsc) => (none, fsc)) (acc, fs)).1 = some l →
      ∀ n ∈ l, (∃ ns0, acc = some ns0 ∧ n ∈ ns0) ∨
        ∃ c fs2, (genBuildNode fs2 fuel (parts ++ [c]) ign).1 = some n := by
  intro cs
  induction cs with
  | nil =>
    intro acc fs l hl n hn
    cases acc with
    | none => exact Option.noConfusion hl
    | some ns0 =>
      exact Or.inl ⟨ns0, rfl, (Option.some.inj hl).symm ▸ hn⟩
  | cons c cs ihc =>
    intro acc fs l hl n hn
    dsimp only [List.foldl] at hl
    cases acc with
    | none =>
      rw [genFold_none fuel parts ign cs fs] at hl
      exact Option.noConfusion hl
    | some ns =>
      cases hg : genBuildNode fs fuel (parts ++ [c]) ign with
      | mk onode fsc =>
        rw [hg] at hl
        cases onode with
        | none =>
          rw [genFold_none fuel parts ign cs fsc] at hl
          exact Option.noConfusion hl
        | some m =>
          rcases ihc (some (ns ++ [m])) fsc l hl n hn with ⟨ns0, hns0, hmem⟩ | h2
          · cases Option.some.inj hns0
            rcases List.mem_append.mp hmem with h3 | h3
            · exact Or.inl ⟨ns, rfl, h3⟩
            · rw [List.eq_of_mem_singleton h3]
              refine Or.inr ⟨c, fs, ?_⟩
              rw [hg]
          · exact Or.inr h2

/-- Membership through an `if _ then none else some _` children field. -/
theorem mem_ite_none_some {α : Type} {P : Prop} [Decidable P] {x : α} {l : List α}
    (h : x ∈ (if P then none else some l).getD []) : x ∈ l := by
  split at h
  · simp at h
  · exact h

/-- Every child of a node returned by a completed generator call is itself
returned by a completed recursive `genBuildNode` at the position extended
by a directory name. -/
theorem genBuildNode_children_mem (fs : FS) (fuel : Nat) (parts ign : List String)
    (node : GalleryNode)
    (h : (genBuildNode fs (fuel + 1) parts ign).1 = some node) :
    ∀ n ∈ node.children.getD [],
      ∃ c fs2 ign2, (genBuildNode fs2 fuel (parts ++ [c]) ign2).1 = some n := by
  unfold genBuildNode at h
  dsimp only at h
  split at h
  · exact Option.noConfusion h
  · split at h
    · exact Option.noConfusion h
    · split at h
      · exact Option.noConfusion h
      · next children hcf =>
        cases Option.some.inj h
        intro n hn
        have hn2 := mem_ite_none_some hn
        rcases genFold_children fuel parts _ _ (some []) _ children hcf n hn2 with
          ⟨ns0, hns0, hmem⟩ | ⟨c, fs2, hsome⟩
        · cases Option.some.inj hns0
          simp at hmem
        · exact ⟨c, fs2, _, hsome⟩

/-- The normalized snapshot of every node a completed generator call
returns carries position-determined addresses at every depth. -/
theorem gen_addrOK : ∀ (fuel : Nat) (fs : FS) (parts ign : List String)
    (node : GalleryNode), (genBuildNode fs fuel parts ign).1 = some node →
    addrOK (normalizeManifest (toRaw node)) parts := by
  intro fuel
  induction fuel with
  | zero =>
    intro fs parts ign node h
    unfold genBuildNode at h
    cases Option.some.inj h
    exact rfl
  | succ fuel ih =>
    intro fs parts ign node h
    apply addrOK_intro
    · rw [norm_toRaw_webPath]
      exact (genBuildNode_some_addr fs (fuel + 1) parts ign node h).2
    · intro c hc
      obtain ⟨m, hm, rfl⟩ := norm_toRaw_children_mem node c hc
      obtain ⟨cn, fs2, ign2, hsome⟩ :=
        genBuildNode_children_mem fs fuel parts ign node h m hm
      rw [norm_toRaw_name,
        (genBuildNode_some_addr fs2 fuel (parts ++ [cn]) ign2 m hsome).1,
        dirNameOf, List.getLastD_concat]
      exact ih fs2 (parts ++ [cn]) ign2 m hsome

/-- C1 (amended): the live scan assigns, at every depth, the public
address determined by the node's position below the collection root, and
so does the normalized snapshot of any tree a completed generator run
returns; hence the two trees agree on public addresses wherever both have
a node.  (They do not in general agree on cover addresses or media lists -
see the counterexample.) -/
theorem live_and_snapshot_addresses (cfg : Config) (fs : FS) (fuel : Nat)
    (parts ign : List String) (sib : Nat) :
    addrOK (buildNode cfg fs fuel parts sib) parts ∧
      (∀ node, (genBuildNode fs fuel parts ign).1 = some node →
        addrOK (normalizeManifest (toRaw node)) parts) :=
  ⟨buildNode_addrOK cfg fs fuel parts sib,
    fun node h => gen_addrOK fuel fs parts ign node h⟩

/-- Witness for C1 (amended): on the one-child tree, whose generator run
completes, both halves hold at the root position. -/
theorem live_and_snapshot_addresses_witness :
    addrOK (buildNode cfg0 fsOneChildImage 2 [] 0) [] ∧
      addrOK (normalizeManifest (toRaw
        ((genBuildNode fsOneChildImage 2 [] []).1.getD
          (GalleryNode.mk "" "" "" "" none none none)))) [] :=
  ⟨(live_and_snapshot_addresses cfg0 fsOneChildImage 2 [] [] 0).1,
    (live_and_snapshot_addresses cfg0 fsOneChildImage 2 [] [] 0).2
      ((genBuildNode fsOneChildImage 2 [] []).1.getD
        (GalleryNode.mk "" "" "" "" none none none)) (by rfl)⟩


/-! ### Adequacy of the breadth-first search fuel -/

theorem entrySize_eq (e : Entry) : entrySize e = 1 + entriesSize e.entries := by
  cases e <;> rfl

theorem qSize_append (a b : List (List Entry × List String)) :
    qSize (a ++ b) = qSize a + qSize b := by
  induction a with
  | nil => simp [qSize]
  | cons hd tl ih =>
    obtain ⟨es, parts⟩ := hd
    simp [qSize, ih]
    omega

theorem qSize_map_entries (g : Entry → List String) : ∀ (l : List Entry),
    qSize (l.map (fun e => (e.entries, g e))) = entriesSize l := by
  intro l
  induction l with
  | nil => rfl
  | cons e l ih =>
    simp only [List.map_cons, qSize, entriesSize, ih]
    rw [entrySize_eq]

theorem entriesSize_insertLt (lt : Entry → Entry → Bool) (a : Entry) :
    ∀ (l : List Entry), entriesSize (insertLt lt a l) = entrySize a + entriesSize l := by
  intro l
  induction l with
  | nil => rfl
  | cons b l ih =>
    unfold insertLt
    split
    · simp only [entriesSize, ih]; omega
    · rfl

theorem entriesSize_sortLt (lt : Entry → Entry → Bool) : ∀ (l : List Entry),
    entriesSize (sortLt lt l) = entriesSize l := by
  intro l
  induction l with
  | nil => rfl
  | cons a l ih => simp only [sortLt, entriesSize_insertLt, ih, entriesSize]

theorem entriesSize_filter_le (p : Entry → Bool) : ∀ (l : List Entry),
    entriesSize (l.filter p) ≤ entriesSize l := by
  intro l
  induction l with
  | nil => exact Nat.le_refl _
  | cons a l ih =>
    rw [List.filter_cons]
    have ha : 1 ≤ entrySize a := by
      cases a
      · exact Nat.le_refl _
      · exact Nat.le_add_right 1 _
    split
    · simp only [entriesSize]; omega
    · simp only [entriesSize]; omega

theorem qSize_eq_zero : ∀ {q : List (List Entry × List String)},
    qSize q = 0 → q = [] := by
  intro q h
  cases q with
  | nil => rfl
  | cons hd tl =>
    obtain ⟨es, parts⟩ := hd
    simp [qSize] at h

/-- Any fuel at least the queue measure computes the same breadth-first
search result: the explicit fuel in `findFileUnderPortfolioBFS` is a
termination device, not part of the semantics. -/
theorem bfsGoF_fuel_irrelevant (t w : String) : ∀ (f g : Nat)
    (q : List (List Entry × List String)), qSize q ≤ f → qSize q ≤ g →
    bfsGoF t w f q = bfsGoF t w g q := by
  intro f
  induction f with
  | zero =>
    intro g q hf _
    rw [qSize_eq_zero (Nat.le_zero.mp hf)]
    cases g <;> rfl
  | succ f ih =>
    intro g q hf hg
    cases q with
    | nil => cases g <;> rfl
    | cons hd q2 =>
      obtain ⟨es, parts⟩ := hd
      have hq : qSize ((es, parts) :: q2) = 1 + entriesSize es + qSize q2 := rfl
      obtain ⟨g2, rfl⟩ : ∃ g2, g = g2 + 1 := by
        cases g with
        | zero => rw [hq] at hg; omega
        | succ g2 => exact ⟨g2, rfl⟩
      unfold bfsGoF
      dsimp only
      split
      · rfl
      · split
        · rfl
        · apply ih
          · rw [qSize_append, qSize_map_entries]
            have h1 := entriesSize_sortLt entLt
              (es.filter (fun e => e.isDir && !strStartsWith e.name "."))
            have h2 := entriesSize_filter_le
              (fun e => e.isDir && !strStartsWith e.name ".") es
            rw [hq] at hf
            omega
          · rw [qSize_append, qSize_map_entries]
            have h1 := entriesSize_sortLt entLt
              (es.filter (fun e => e.isDir && !strStartsWith e.name "."))
            have h2 := entriesSize_filter_le
              (fun e => e.isDir && !strStartsWith e.name ".") es
            rw [hq] at hg
            omega

end Gallery
